import Mathlib

/-!
Verification of the geometric core of the ldrb fiber-generation library
(file `ldrb/ldrb.py`).

Modelling conventions.  Python floats are modelled as real numbers; numpy
3-vectors as `Vec3`, 3x3 matrices as `Mat3` (stored by columns), and the
quaternions of the `quaternion` package as `Quat`.  The three external
numerical routines used by the source are not part of the repository and are
modelled as explicit function parameters, constrained in theorems by their
documented contracts:
  - `scipy.optimize.root`  -> a `RootSolver` parameter (takes the residual
    function and the initial guess, returns the solution vector `sol.x`);
  - `quaternion.from_rotation_matrix` -> a `Mat3 -> Quat` parameter (its
    contract: it returns a unit quaternion representing the rotation);
  - `quaternion.slerp` -> a `Quat -> Quat -> Real -> Quat` parameter (its
    contract at the endpoints: `slerp p q 0 = p` and `slerp p q 1 = q`).
`quaternion.as_rotation_matrix` is a closed-form polynomial expression and is
embedded concretely.  numpy arrays that the assembler indexes are modelled as
total functions from indices.
-/

namespace Ldrb

/-- Model of `np.arange(start, stop, step)` on naturals with `step > 0`:
the list `start, start+step, ...` of length `ceil((stop-start)/step)`
(empty when `stop <= start`). -/
def arange (start stop step : ℕ) : List ℕ :=
  (List.range ((stop - start + step - 1) / step)).map (fun k => start + step * k)

/-- Python `zip` of four lists: truncates to the shortest input. -/
def zip4 : List ℕ → List ℕ → List ℕ → List ℕ → List (ℕ × ℕ × ℕ × ℕ)
  | a :: as_, b :: bs, c :: cs, d :: ds => (a, b, c, d) :: zip4 as_ bs cs ds
  | _, _, _, _ => []

/-- `standard_dofs` (ldrb.py lines 160-169): x/y/z dof indices generated with
stride `n` (`np.arange(0, 3*n, n)` etc.) and scalar dofs `0..n-1`, zipped
(`zip` truncates to the shortest list). -/
def standard_dofs (n : ℕ) : List (ℕ × ℕ × ℕ × ℕ) :=
  zip4 (arange 0 (3 * n) n) (arange 1 (3 * n) n) (arange 2 (3 * n) n)
    (arange 0 n 1)

/-- A real 3-vector (a numpy array of shape (3,)). -/
@[ext]
structure Vec3 where
  x : ℝ
  y : ℝ
  z : ℝ

instance : Zero Vec3 := ⟨⟨0, 0, 0⟩⟩
instance : Neg Vec3 := ⟨fun v => ⟨-v.x, -v.y, -v.z⟩⟩
instance : Sub Vec3 := ⟨fun a b => ⟨a.x - b.x, a.y - b.y, a.z - b.z⟩⟩
instance : SMul ℝ Vec3 := ⟨fun c v => ⟨c * v.x, c * v.y, c * v.z⟩⟩

/-- `u.dot(v)` of numpy. -/
def dot (a b : Vec3) : ℝ := a.x * b.x + a.y * b.y + a.z * b.z

/-- `np.cross(u, v)`. -/
def cross (a b : Vec3) : Vec3 :=
  ⟨a.y * b.z - a.z * b.y, a.z * b.x - a.x * b.z, a.x * b.y - a.y * b.x⟩

/-- `np.linalg.norm(v)`. -/
noncomputable def vnorm (v : Vec3) : ℝ := Real.sqrt (dot v v)

/-- `normalize` (ldrb.py lines 16-20): `u / np.linalg.norm(u)`, componentwise
scalar division. -/
noncomputable def normalize (v : Vec3) : Vec3 :=
  ⟨v.x / vnorm v, v.y / vnorm v, v.z / vnorm v⟩

/-- A real 3x3 matrix, stored by columns. -/
@[ext]
structure Mat3 where
  c0 : Vec3
  c1 : Vec3
  c2 : Vec3

/-- Matrix-vector product (rows of `A` dotted with `v`). -/
def mulVec (A : Mat3) (v : Vec3) : Vec3 :=
  ⟨A.c0.x * v.x + A.c1.x * v.y + A.c2.x * v.z,
   A.c0.y * v.x + A.c1.y * v.y + A.c2.y * v.z,
   A.c0.z * v.x + A.c1.z * v.y + A.c2.z * v.z⟩

/-- `np.dot(A, B)` for 3x3 matrices. -/
def matMul (A B : Mat3) : Mat3 := ⟨mulVec A B.c0, mulVec A B.c1, mulVec A B.c2⟩

/-- Matrix transpose. -/
def transpose (A : Mat3) : Mat3 :=
  ⟨⟨A.c0.x, A.c1.x, A.c2.x⟩, ⟨A.c0.y, A.c1.y, A.c2.y⟩, ⟨A.c0.z, A.c1.z, A.c2.z⟩⟩

/-- The identity matrix. -/
def idMat : Mat3 := ⟨⟨1, 0, 0⟩, ⟨0, 1, 0⟩, ⟨0, 0, 1⟩⟩

/-- Matrix trace. -/
def trace (A : Mat3) : ℝ := A.c0.x + A.c1.y + A.c2.z

/-- Determinant of a 3x3 matrix (triple product of its columns). -/
def det (A : Mat3) : ℝ := dot A.c0 (cross A.c1 A.c2)

/-- Orthonormality of a frame: `Q^T Q = I` (the spec's `Q^T Q ≈ I`, exact in
the real-number model). -/
def IsOrthonormal (Q : Mat3) : Prop := matMul (transpose Q) Q = idMat

/-- A proper rotation matrix: orthonormal with determinant `+1`. -/
def IsRotation (Q : Mat3) : Prop := IsOrthonormal Q ∧ det Q = 1

/-- A quaternion `w + x*i + y*j + z*k` of the numpy `quaternion` package
(constructor argument order `quaternion(w, x, y, z)`). -/
@[ext]
structure Quat where
  w : ℝ
  x : ℝ
  y : ℝ
  z : ℝ

instance : Neg Quat := ⟨fun q => ⟨-q.w, -q.x, -q.y, -q.z⟩⟩
instance : Add Quat := ⟨fun p q => ⟨p.w + q.w, p.x + q.x, p.y + q.y, p.z + q.z⟩⟩
instance : SMul ℝ Quat := ⟨fun c q => ⟨c * q.w, c * q.x, c * q.y, c * q.z⟩⟩

/-- Hamilton product of quaternions. -/
instance : Mul Quat :=
  ⟨fun p q =>
    ⟨p.w * q.w - p.x * q.x - p.y * q.y - p.z * q.z,
     p.w * q.x + p.x * q.w + p.y * q.z - p.z * q.y,
     p.w * q.y - p.x * q.z + p.y * q.w + p.z * q.x,
     p.w * q.z + p.x * q.y - p.y * q.x + p.z * q.w⟩⟩

/-- `quaternion.quaternion(0, 1, 0, 0)`. -/
def quat_i : Quat := ⟨0, 1, 0, 0⟩

/-- `quaternion.quaternion(0, 0, 1, 0)`. -/
def quat_j : Quat := ⟨0, 0, 1, 0⟩

/-- `quaternion.quaternion(0, 0, 0, 1)`. -/
def quat_k : Quat := ⟨0, 0, 0, 1⟩

/-- The local `dot` of `bislerp` (ldrb.py lines 143-144): the 4-dimensional
dot product over the components `x, y, z, w`. -/
def qdot (p q : Quat) : ℝ := p.x * q.x + p.y * q.y + p.z * q.z + p.w * q.w

/-- Squared norm of a quaternion. -/
def qnormSq (q : Quat) : ℝ := q.w * q.w + q.x * q.x + q.y * q.y + q.z * q.z

/-- Absolute value (Euclidean norm) of a quaternion. -/
noncomputable def qabs (q : Quat) : ℝ := Real.sqrt (qnormSq q)

/-- `q.normalized()` of the quaternion package: `q` divided by its norm. -/
noncomputable def qnormalized (q : Quat) : Quat :=
  ⟨q.w / qabs q, q.x / qabs q, q.y / qabs q, q.z / qabs q⟩

/-- `quaternion.as_rotation_matrix(q)`: the closed-form rotation matrix of a
quaternion, with the package's division by the squared norm `n`.  Stored by
columns; entry `(i, j)` of the matrix is component `i` of column `j`. -/
noncomputable def as_rotation_matrix (q : Quat) : Mat3 :=
  let n := qnormSq q
  ⟨⟨1 - 2 * (q.y * q.y + q.z * q.z) / n,
    2 * (q.x * q.y + q.z * q.w) / n,
    2 * (q.x * q.z - q.y * q.w) / n⟩,
   ⟨2 * (q.x * q.y - q.z * q.w) / n,
    1 - 2 * (q.x * q.x + q.z * q.z) / n,
    2 * (q.y * q.z + q.x * q.w) / n⟩,
   ⟨2 * (q.x * q.z + q.y * q.w) / n,
    2 * (q.y * q.z - q.x * q.w) / n,
    1 - 2 * (q.x * q.x + q.y * q.y) / n⟩⟩

/-- The type of the external root solver (`scipy.optimize.root`): it receives
the residual function and the initial guess and yields the solution vector
`sol.x` (the source does not inspect `sol.success`). -/
def RootSolver : Type := (Vec3 → Vec3) → Vec3 → Vec3

/-- The residual function `f` defined inside `axis` (ldrb.py lines 43-45),
with `e1 = normalize(u)` and `v` captured from the enclosing scope:
`f(e0) = e0 - cross(e1, normalize(v - e0.dot(v) * e0))`. -/
noncomputable def axis_root (u v : Vec3) : Vec3 → Vec3 :=
  fun e0 => e0 - cross (normalize u) (normalize (v - dot e0 v • e0))

/-- The initial guess for `e0` built by `axis` (ldrb.py lines 33-41):
Gram-Schmidt of `v` against `e1`, then the normalized cross product. -/
noncomputable def axis_guess (u v : Vec3) : Vec3 :=
  let e1 := normalize u
  let e2a := normalize v
  let e2b := e2a - dot e1 e2a • e1
  let e2 := normalize e2b
  normalize (cross e1 e2)

/-- `axis` (ldrb.py lines 23-52): runs the root solver on the residual from
the initial guess, recomputes `e2` from the converged `e0`, and returns
`Q = np.array([e0, e1, e2]).T`, i.e. the matrix with columns `e0, e1, e2`. -/
noncomputable def axis (solver : RootSolver) (u v : Vec3) : Mat3 :=
  let e1 := normalize u
  let e0 := solver (axis_root u v) (axis_guess u v)
  let e2 := normalize (v - dot e0 v • e0)
  ⟨e0, e1, e2⟩

/-- `orient` (ldrb.py lines 55-81): `C = Q.real @ A @ B` where `A` rotates by
`alpha` degrees and `B` by `beta` degrees (`np.radians(t) = t * pi / 180`).
The matrices `A` and `B` are written here by columns; our matrices are real,
so the `.real` projection is the identity. -/
noncomputable def orient (Q : Mat3) (alpha beta : ℝ) : Mat3 :=
  let a := alpha * (Real.pi / 180)
  let b := beta * (Real.pi / 180)
  let A : Mat3 := ⟨⟨Real.cos a, Real.sin a, 0⟩, ⟨-Real.sin a, Real.cos a, 0⟩, ⟨0, 0, 1⟩⟩
  let B : Mat3 := ⟨⟨1, 0, 0⟩, ⟨0, Real.cos b, -Real.sin b⟩, ⟨0, Real.sin b, Real.cos b⟩⟩
  matMul (matMul Q A) B

/-- First-occurrence maximum selection over `(candidate, score)` pairs:
`pickMax p l` is the pair of maximal score among `p :: l`, preferring the
earliest in case of ties.  This is `np.argmax` over the score list combined
with indexing both lists at the result (ldrb.py lines 146-149). -/
noncomputable def pickMax : Quat × ℝ → List (Quat × ℝ) → Quat × ℝ
  | p, [] => p
  | p, q :: rest => if p.2 < (pickMax q rest).2 then pickMax q rest else p

/-- The eight quaternion candidates `quat_array` of `bislerp`
(ldrb.py lines 132-141). -/
noncomputable def quat_candidates (qa : Quat) : List Quat :=
  [qa, -qa, qa * quat_i, -(qa * quat_i), qa * quat_j, -(qa * quat_j),
   qa * quat_k, -(qa * quat_k)]

/-- The `(qm, max_dot)` pair of `bislerp` (ldrb.py lines 146-149): the
candidate of maximal absolute dot product with `qb = frm Qb`, first
occurrence winning as with `np.argmax`. -/
noncomputable def bislerp_max_pair (frm : Mat3 → Quat) (Qa Qb : Mat3) : Quat × ℝ :=
  let qa := frm Qa
  let qb := frm Qb
  match (quat_candidates qa).map (fun q => (q, |qdot q qb|)) with
  | [] => (qa, 0)
  | p :: rest => pickMax p rest

/-- `bislerp` (ldrb.py lines 106-157), parametrized by the external
`quaternion.from_rotation_matrix` (`frm`) and `quaternion.slerp` (`sl`, with
the fixed time interval `0, 1` already applied).  Absent inputs short-circuit;
otherwise the closest candidate representative of `Qa` is selected, a maximal
dot product above `1 - 1e-12` returns `Qb` directly, and otherwise slerp at
`t` is normalized and converted back to a matrix. -/
noncomputable def bislerp (frm : Mat3 → Quat) (sl : Quat → Quat → ℝ → Quat) :
    Option Mat3 → Option Mat3 → ℝ → Option Mat3
  | none, none, _ => none
  | none, some Qb, _ => some Qb
  | some Qa, none, _ => some Qa
  | some Qa, some Qb, t =>
    let tol : ℝ := 1e-12
    let qb := frm Qb
    let best := bislerp_max_pair frm Qa Qb
    if 1 - tol < best.2 then some Qb
    else some (as_rotation_matrix (qnormalized (sl best.1 qb t)))

/-- The depth computation of `system_at_dof` (ldrb.py lines 225-228):
`0.5` when `lv + rv < tol`, else `rv / (lv + rv)`. -/
noncomputable def depthFn (lv rv tol : ℝ) : ℝ :=
  if lv + rv < tol then 0.5 else rv / (lv + rv)

/-- `system_at_dof` (ldrb.py lines 172-248), parametrized by the external
root solver and quaternion routines.  The angle helpers `alpha_s, alpha_w,
beta_s, beta_w` are the source's lambdas (lines 220-223); note `alpha_s` and
`beta_s` use the endocardial angle twice.  Returns `none` exactly when no
regional frame is defined. -/
noncomputable def system_at_dof (solver : RootSolver) (frm : Mat3 → Quat)
    (sl : Quat → Quat → ℝ → Quat) (lv rv epi : ℝ)
    (grad_lv grad_rv grad_epi grad_ab : Vec3)
    (alpha_endo alpha_epi beta_endo beta_epi : ℝ) (tol : ℝ) : Option Mat3 :=
  let alpha_s := fun d : ℝ => alpha_endo * (1 - d) - alpha_endo * d
  let alpha_w := fun d : ℝ => alpha_endo * (1 - d) + alpha_epi * d
  let beta_s := fun d : ℝ => beta_endo * (1 - d) - beta_endo * d
  let beta_w := fun d : ℝ => beta_endo * (1 - d) + beta_epi * d
  let depth := depthFn lv rv tol
  let Q_lv : Option Mat3 :=
    if lv > tol then
      some (orient (axis solver grad_ab ((-1 : ℝ) • grad_lv)) (alpha_s depth) (beta_s depth))
    else none
  let Q_rv : Option Mat3 :=
    if rv > tol then
      some (orient (axis solver grad_ab grad_rv) (alpha_s depth) (beta_s depth))
    else none
  let Q_endo := bislerp frm sl Q_lv Q_rv depth
  let Q_epi : Option Mat3 :=
    if epi > tol then
      some (orient (axis solver grad_ab grad_epi) (alpha_w epi) (beta_w epi))
    else none
  bislerp frm sl Q_endo Q_epi epi

/-- Python `x or y` applied to an `Optional[float]` with a float fallback:
`None` and `0.0` are falsy, any other float is returned unchanged
(ldrb.py lines 283-291). -/
noncomputable def pyOrF (x : Option ℝ) (y : ℝ) : ℝ :=
  match x with
  | none => y
  | some v => if v = 0 then y else v

/-- The twelve angle scalars after default resolution in
`compute_fiber_sheet_system`. -/
structure Angles where
  alpha_endo_lv : ℝ
  alpha_epi_lv : ℝ
  beta_endo_lv : ℝ
  beta_epi_lv : ℝ
  alpha_endo_rv : ℝ
  alpha_epi_rv : ℝ
  alpha_endo_sept : ℝ
  alpha_epi_sept : ℝ
  beta_endo_rv : ℝ
  beta_epi_rv : ℝ
  beta_endo_sept : ℝ
  beta_epi_sept : ℝ

/-- The default resolution block of `compute_fiber_sheet_system`
(ldrb.py lines 283-291), using Python `or` truthiness.  Note line 290 of the
source: `beta_endo_sept = beta_endo_sept or beta_epi_lv`. -/
noncomputable def resolve_angles (aelv aeplv belv beplv : ℝ)
    (aerv aeprv aes aeps berv beprv bes beps : Option ℝ) : Angles where
  alpha_endo_lv := aelv
  alpha_epi_lv := aeplv
  beta_endo_lv := belv
  beta_epi_lv := beplv
  alpha_endo_rv := pyOrF aerv aelv
  alpha_epi_rv := pyOrF aeprv aeplv
  alpha_endo_sept := pyOrF aes aelv
  alpha_epi_sept := pyOrF aeps aeplv
  beta_endo_rv := pyOrF berv belv
  beta_epi_rv := pyOrF beprv beplv
  beta_endo_sept := pyOrF bes beplv
  beta_epi_sept := pyOrF beps beplv

/-- One region's angle set as selected in the assembler loop. -/
structure AngleSet where
  alpha_endo : ℝ
  beta_endo : ℝ
  alpha_epi : ℝ
  beta_epi : ℝ

/-- The region classification of the assembler loop (ldrb.py lines 356-389):
LV when `lv > tol` and `rv < tol`, RV when `lv < tol` and `rv > tol`, septum
when both exceed `tol`, and otherwise the documented LV fallback. -/
noncomputable def select_angles (A : Angles) (lv rv tol : ℝ) : AngleSet :=
  if lv > tol ∧ rv < tol then
    ⟨A.alpha_endo_lv, A.beta_endo_lv, A.alpha_epi_lv, A.beta_epi_lv⟩
  else if lv < tol ∧ rv > tol then
    ⟨A.alpha_endo_rv, A.beta_endo_rv, A.alpha_epi_rv, A.beta_epi_rv⟩
  else if lv > tol ∧ rv > tol then
    ⟨A.alpha_endo_sept, A.beta_endo_sept, A.alpha_epi_sept, A.beta_epi_sept⟩
  else
    ⟨A.alpha_endo_lv, A.beta_endo_lv, A.alpha_epi_lv, A.beta_epi_lv⟩

/-- The per-point frame computed inside the assembler loop (ldrb.py lines
338-404): the angle set is selected with the classification tolerance
`tol = 1e-3`, and `system_at_dof` is invoked with that same `tol` (the
keyword argument `tol=tol` at line 403). -/
noncomputable def fss_point_frame (solver : RootSolver) (frm : Mat3 → Quat)
    (sl : Quat → Quat → ℝ → Quat) (lv rv epi : ℝ)
    (grad_lv grad_rv grad_epi grad_ab : Vec3) (A : Angles) : Option Mat3 :=
  let tol : ℝ := 1e-3
  let s := select_angles A lv rv tol
  system_at_dof solver frm sl lv rv epi grad_lv grad_rv grad_epi grad_ab
    s.alpha_endo s.alpha_epi s.beta_endo s.beta_epi tol

/-- The per-point input fields of the assembler (numpy arrays modelled as
total functions from indices). -/
structure FieldData where
  lv_scalar : ℕ → ℝ
  rv_scalar : ℕ → ℝ
  epi_scalar : ℕ → ℝ
  lv_gradient : ℕ → ℝ
  rv_gradient : ℕ → ℝ
  epi_gradient : ℕ → ℝ
  apex_gradient : ℕ → ℝ

/-- The numpy fancy assignment `f[[i, j, k]] = v` on a flat array: positions
`i`, `j`, `k` receive the components of `v`; with duplicated indices the last
assignment wins, as in numpy. -/
def update3 (f : ℕ → ℝ) (i j k : ℕ) (v : Vec3) : ℕ → ℝ :=
  fun m => if m = k then v.z else if m = j then v.y else if m = i then v.x else f m

/-- One iteration of the assembler loop (ldrb.py lines 340-410): read the
scalars and gradients at the dof tuple, compute the per-point frame, and
either leave the accumulators unchanged (`continue`, line 407) or write the
three columns of `Q_fiber` into the fiber/sheet/sheet-normal arrays. -/
noncomputable def fss_step (solver : RootSolver) (frm : Mat3 → Quat)
    (sl : Quat → Quat → ℝ → Quat) (D : FieldData) (A : Angles)
    (st : (ℕ → ℝ) × (ℕ → ℝ) × (ℕ → ℝ)) (d : ℕ × ℕ × ℕ × ℕ) :
    (ℕ → ℝ) × (ℕ → ℝ) × (ℕ → ℝ) :=
  let xd := d.1
  let yd := d.2.1
  let zd := d.2.2.1
  let sd := d.2.2.2
  let lv := D.lv_scalar sd
  let rv := D.rv_scalar sd
  let epi := D.epi_scalar sd
  let grad_lv : Vec3 := ⟨D.lv_gradient xd, D.lv_gradient yd, D.lv_gradient zd⟩
  let grad_rv : Vec3 := ⟨D.rv_gradient xd, D.rv_gradient yd, D.rv_gradient zd⟩
  let grad_epi : Vec3 := ⟨D.epi_gradient xd, D.epi_gradient yd, D.epi_gradient zd⟩
  let grad_ab : Vec3 := ⟨D.apex_gradient xd, D.apex_gradient yd, D.apex_gradient zd⟩
  match fss_point_frame solver frm sl lv rv epi grad_lv grad_rv grad_epi grad_ab A with
  | none => st
  | some Q =>
    (update3 st.1 xd yd zd Q.c0, update3 st.2.1 xd yd zd Q.c1,
     update3 st.2.2 xd yd zd Q.c2)

/-- The assembler main loop: fold of `fss_step` over the dof tuples. -/
noncomputable def fss_loop (solver : RootSolver) (frm : Mat3 → Quat)
    (sl : Quat → Quat → ℝ → Quat) (D : FieldData) (A : Angles)
    (dofs : List (ℕ × ℕ × ℕ × ℕ)) (st : (ℕ → ℝ) × (ℕ → ℝ) × (ℕ → ℝ)) :
    (ℕ → ℝ) × (ℕ → ℝ) × (ℕ → ℝ) :=
  dofs.foldl (fss_step solver frm sl D A) st

/-- `compute_fiber_sheet_system` (ldrb.py lines 251-412): defaults for `dofs`
(the `standard_dofs` of the scalar length `n`), for the RV fields (zero
arrays), and for the eight RV/septal angles; then the zero-initialized
output arrays are populated by the loop.  `n` stands for `len(lv_scalar)`. -/
noncomputable def compute_fiber_sheet_system (solver : RootSolver)
    (frm : Mat3 → Quat) (sl : Quat → Quat → ℝ → Quat) (n : ℕ)
    (lv_scalar lv_gradient epi_scalar epi_gradient apex_gradient : ℕ → ℝ)
    (dofs : Option (List (ℕ × ℕ × ℕ × ℕ)))
    (rv_scalar rv_gradient : Option (ℕ → ℝ))
    (alpha_endo_lv alpha_epi_lv : ℝ)
    (alpha_endo_rv alpha_epi_rv alpha_endo_sept alpha_epi_sept : Option ℝ)
    (beta_endo_lv beta_epi_lv : ℝ)
    (beta_endo_rv beta_epi_rv beta_endo_sept beta_epi_sept : Option ℝ) :
    (ℕ → ℝ) × (ℕ → ℝ) × (ℕ → ℝ) :=
  let dofs := dofs.getD (standard_dofs n)
  let rv_scalar := rv_scalar.getD (fun _ => 0)
  let rv_gradient := rv_gradient.getD (fun _ => 0)
  let A := resolve_angles alpha_endo_lv alpha_epi_lv beta_endo_lv beta_epi_lv
    alpha_endo_rv alpha_epi_rv alpha_endo_sept alpha_epi_sept
    beta_endo_rv beta_epi_rv beta_endo_sept beta_epi_sept
  let D : FieldData :=
    ⟨lv_scalar, rv_scalar, epi_scalar, lv_gradient, rv_gradient, epi_gradient,
     apex_gradient⟩
  fss_loop solver frm sl D A dofs (fun _ => 0, fun _ => 0, fun _ => 0)

/-- The default tolerance of `system_at_dof` (ldrb.py line 184). -/
noncomputable def SYSTEM_TOL : ℝ := 1e-7

/-- The tolerance constant of `compute_fiber_sheet_system` (ldrb.py line 338). -/
noncomputable def CLASSIFICATION_TOL : ℝ := 1e-3

/-- A root solver that returns the initial guess unchanged (used to
instantiate theorems at concrete inputs where the guess is already a root). -/
noncomputable def guessSolver : RootSolver := fun _ x0 => x0

/-- A constant `from_rotation_matrix` stand-in returning the identity
quaternion (used to instantiate theorems at concrete inputs). -/
noncomputable def unitFrm : Mat3 → Quat := fun _ => ⟨1, 0, 0, 0⟩

/-- Componentwise linear interpolation of quaternions: a slerp stand-in that
satisfies the endpoint contract `sl p q 0 = p`, `sl p q 1 = q` exactly. -/
noncomputable def lerpQ : Quat → Quat → ℝ → Quat :=
  fun p q t => ((1 - t) • p) + (t • q)

/-- A root solver returning the constant vector `(0, 3/5, 0)` (the exact root
of the `axis` residual for `u = (0,0,1)`, `v = (3,0,4)`). -/
noncomputable def ctrexSolver : RootSolver := fun _ _ => ⟨0, 3 / 5, 0⟩

/-- The rotation about the x-axis with `cos = -7/25`, `sin = 24/25`
(about 106 degrees; stored by columns). -/
noncomputable def Qb4 : Mat3 :=
  ⟨⟨1, 0, 0⟩, ⟨0, -7 / 25, 24 / 25⟩, ⟨0, -24 / 25, -7 / 25⟩⟩

/-- A `from_rotation_matrix` stand-in mapping the identity matrix to the
identity quaternion and every other matrix to the unit quaternion
`(3/5, 4/5, 0, 0)` (which represents `Qb4`). -/
noncomputable def frm4 : Mat3 → Quat :=
  fun M => if M.c1.y = 1 then ⟨1, 0, 0, 0⟩ else ⟨3 / 5, 4 / 5, 0, 0⟩

/-- All-zero input fields. -/
noncomputable def zeroField : FieldData :=
  ⟨fun _ => 0, fun _ => 0, fun _ => 0, fun _ => 0, fun _ => 0, fun _ => 0,
   fun _ => 0⟩

/-- The angle set obtained from the source's default angles
(40, -50, -65, 25) with no RV/septal overrides. -/
noncomputable def defaultAngles : Angles :=
  resolve_angles 40 (-50) (-65) 25 none none none none none none none none

theorem Vec3.zero_def : (0 : Vec3) = ⟨0, 0, 0⟩ := rfl

theorem Vec3.zero_x : (0 : Vec3).x = 0 := rfl

theorem Vec3.zero_y : (0 : Vec3).y = 0 := rfl

theorem Vec3.zero_z : (0 : Vec3).z = 0 := rfl

theorem Vec3.neg_def (a : Vec3) : -a = ⟨-a.x, -a.y, -a.z⟩ := rfl

theorem Vec3.sub_def (a b : Vec3) : a - b = ⟨a.x - b.x, a.y - b.y, a.z - b.z⟩ := rfl

theorem Vec3.smul_def (c : ℝ) (a : Vec3) : c • a = ⟨c * a.x, c * a.y, c * a.z⟩ := rfl

theorem Quat.qneg_def (q : Quat) : -q = ⟨-q.w, -q.x, -q.y, -q.z⟩ := rfl

theorem Quat.qadd_def (p q : Quat) :
    p + q = ⟨p.w + q.w, p.x + q.x, p.y + q.y, p.z + q.z⟩ := rfl

theorem Quat.qsmul_def (c : ℝ) (q : Quat) :
    c • q = ⟨c * q.w, c * q.x, c * q.y, c * q.z⟩ := rfl

theorem Quat.qmul_def (p q : Quat) :
    p * q =
      ⟨p.w * q.w - p.x * q.x - p.y * q.y - p.z * q.z,
       p.w * q.x + p.x * q.w + p.y * q.z - p.z * q.y,
       p.w * q.y - p.x * q.z + p.y * q.w + p.z * q.x,
       p.w * q.z + p.x * q.y - p.y * q.x + p.z * q.w⟩ := rfl

/-- C1: with the default dof enumeration, the assembler does not visit all
`n` sample points: `standard_dofs 4` produces only three dof tuples (the
x/y/z index lists have stride `n = 4` and hence length 3, and `zip`
truncates), so only scalar dofs 0, 1, 2 are ever processed and sample point
3 is dropped. -/
theorem standard_dofs_truncates_at_four :
    standard_dofs 4 = [(0, 1, 2, 0), (4, 5, 6, 1), (8, 9, 10, 2)] ∧
    (standard_dofs 4).length = 3 ∧
    ((standard_dofs 4).map fun d => d.2.2.2) = [0, 1, 2] := by
  refine ⟨by decide, by decide, by decide⟩

/-- C7: the absence handling of `bislerp`: both inputs absent gives absent,
one absent input returns the other matrix unchanged, for every `t`. -/
theorem bislerp_absent_cases :
    (∀ (frm : Mat3 → Quat) (sl : Quat → Quat → ℝ → Quat) (t : ℝ),
        bislerp frm sl none none t = none) ∧
    (∀ (frm : Mat3 → Quat) (sl : Quat → Quat → ℝ → Quat) (Q : Mat3) (t : ℝ),
        bislerp frm sl (some Q) none t = some Q) ∧
    (∀ (frm : Mat3 → Quat) (sl : Quat → Quat → ℝ → Quat) (Q : Mat3) (t : ℝ),
        bislerp frm sl none (some Q) t = some Q) :=
  ⟨fun _ _ _ => rfl, fun _ _ _ _ => rfl, fun _ _ _ _ => rfl⟩

/-- C9: the depth guard of `system_at_dof`: for non-negative `lv`, `rv` and a
positive tolerance, `depth` is `rv / (lv + rv)` when `lv + rv ≥ tol` (and
then the divisor is strictly positive, so the division-by-zero branch is
unreachable), and `0.5` otherwise. -/
theorem depth_guard (lv rv tol : ℝ) (hlv : 0 ≤ lv) (hrv : 0 ≤ rv)
    (htol : 0 < tol) :
    (tol ≤ lv + rv → depthFn lv rv tol = rv / (lv + rv) ∧ 0 < lv + rv) ∧
    (lv + rv < tol → depthFn lv rv tol = 0.5) := by
  constructor
  · intro h
    exact ⟨by rw [depthFn, if_neg (not_lt.mpr h)], lt_of_lt_of_le htol h⟩
  · intro h
    rw [depthFn, if_pos h]

/-- Witness for `depth_guard` at `lv = 1`, `rv = 3`, `tol = 1e-3`. -/
theorem depth_guard_witness :
    0 ≤ (1 : ℝ) ∧ 0 ≤ (3 : ℝ) ∧ 0 < (1e-3 : ℝ) ∧
    (((1e-3 : ℝ) ≤ 1 + 3 → depthFn 1 3 1e-3 = 3 / (1 + 3) ∧ 0 < (1 : ℝ) + 3) ∧
      ((1 : ℝ) + 3 < 1e-3 → depthFn 1 3 1e-3 = 0.5)) :=
  ⟨by norm_num, by norm_num, by norm_num,
   depth_guard 1 3 1e-3 (by norm_num) (by norm_num) (by norm_num)⟩

/-- C10: an RV or septal angle passed as exactly `0.0` is falsy for Python
`or`, so the resolved angles coincide with those of a call that omitted all
eight of them; in particular `pyOrF (some 0) y = y`, so a zero cannot
survive resolution unless the fallback itself is zero. -/
theorem zero_angle_falls_back (aelv aeplv belv beplv : ℝ) :
    resolve_angles aelv aeplv belv beplv (some 0) (some 0) (some 0) (some 0)
        (some 0) (some 0) (some 0) (some 0) =
      resolve_angles aelv aeplv belv beplv none none none none none none none
        none ∧
    (∀ y : ℝ, pyOrF (some 0) y = y) := by
  constructor
  · simp [resolve_angles, pyOrF]
  · intro y
    simp [pyOrF]

/-- C2 counterexample: with `beta_endo_lv = 30` and `beta_epi_lv = 40` and no
septal overrides, the resolved `beta_endo_sept` is `40 = beta_epi_lv`, not
its same-name LV counterpart `30 = beta_endo_lv` (ldrb.py line 290). -/
theorem beta_endo_sept_default_ctrex :
    (resolve_angles 10 20 30 40 none none none none none none none
        none).beta_endo_sept = 40 ∧
    (resolve_angles 10 20 30 40 none none none none none none none
        none).beta_endo_sept ≠ 30 := by
  constructor
  · rfl
  · norm_num [resolve_angles, pyOrF]

/-- C2 amended: each of the eight RV/septal angles falls back independently
when unset, seven of them to the LV angle of the same name, but
`beta_endo_sept` falls back to `beta_epi_lv`; a supplied non-zero value is
kept. -/
theorem resolve_angles_field_defaults (aelv aeplv belv beplv : ℝ)
    (aerv aeprv aes aeps berv beprv bes beps : Option ℝ) :
    (aerv = none →
      (resolve_angles aelv aeplv belv beplv aerv aeprv aes aeps berv beprv bes
        beps).alpha_endo_rv = aelv) ∧
    (aeprv = none →
      (resolve_angles aelv aeplv belv beplv aerv aeprv aes aeps berv beprv bes
        beps).alpha_epi_rv = aeplv) ∧
    (aes = none →
      (resolve_angles aelv aeplv belv beplv aerv aeprv aes aeps berv beprv bes
        beps).alpha_endo_sept = aelv) ∧
    (aeps = none →
      (resolve_angles aelv aeplv belv beplv aerv aeprv aes aeps berv beprv bes
        beps).alpha_epi_sept = aeplv) ∧
    (berv = none →
      (resolve_angles aelv aeplv belv beplv aerv aeprv aes aeps berv beprv bes
        beps).beta_endo_rv = belv) ∧
    (beprv = none →
      (resolve_angles aelv aeplv belv beplv aerv aeprv aes aeps berv beprv bes
        beps).beta_epi_rv = beplv) ∧
    (bes = none →
      (resolve_angles aelv aeplv belv beplv aerv aeprv aes aeps berv beprv bes
        beps).beta_endo_sept = beplv) ∧
    (beps = none →
      (resolve_angles aelv aeplv belv beplv aerv aeprv aes aeps berv beprv bes
        beps).beta_epi_sept = beplv) ∧
    (∀ c : ℝ, c ≠ 0 → bes = some c →
      (resolve_angles aelv aeplv belv beplv aerv aeprv aes aeps berv beprv bes
        beps).beta_endo_sept = c) := by
  refine ⟨?_, ?_, ?_, ?_, ?_, ?_, ?_, ?_, ?_⟩
  · intro h; subst h; rfl
  · intro h; subst h; rfl
  · intro h; subst h; rfl
  · intro h; subst h; rfl
  · intro h; subst h; rfl
  · intro h; subst h; rfl
  · intro h; subst h; rfl
  · intro h; subst h; rfl
  · intro c hc h; subst h; simp [resolve_angles, pyOrF, hc]

/-- Witness for `resolve_angles_field_defaults`: unset fields fall back (the
septal endocardial sheet angle to `beta_epi_lv = 4`), a supplied `7` is
kept. -/
theorem resolve_angles_field_defaults_witness :
    (resolve_angles 1 2 3 4 none none none none none none none
      none).alpha_endo_rv = 1 ∧
    (resolve_angles 1 2 3 4 none none none none none none none
      none).beta_endo_sept = 4 ∧
    (resolve_angles 1 2 3 4 none none none none none none (some 7)
      none).beta_endo_sept = 7 :=
  ⟨(resolve_angles_field_defaults 1 2 3 4 none none none none none none none
      none).1 rfl,
   (resolve_angles_field_defaults 1 2 3 4 none none none none none none none
      none).2.2.2.2.2.2.1 rfl,
   (resolve_angles_field_defaults 1 2 3 4 none none none none none none
      (some 7) none).2.2.2.2.2.2.2.2 7 (by norm_num) rfl⟩

/-- C3 amended: the `1e-3` tolerance of `compute_fiber_sheet_system` is used
both for region classification and as the `tol` argument of every
`system_at_dof` invocation made by the assembler loop (source line 403
passes `tol=tol`); it is distinct from the engine's `1e-7` default, which
applies only to calls that omit `tol`. -/
theorem engine_uses_classification_tol :
    (∀ (solver : RootSolver) (frm : Mat3 → Quat) (sl : Quat → Quat → ℝ → Quat)
        (lv rv epi : ℝ) (grad_lv grad_rv grad_epi grad_ab : Vec3) (A : Angles),
        fss_point_frame solver frm sl lv rv epi grad_lv grad_rv grad_epi
            grad_ab A =
          system_at_dof solver frm sl lv rv epi grad_lv grad_rv grad_epi
            grad_ab (select_angles A lv rv CLASSIFICATION_TOL).alpha_endo
            (select_angles A lv rv CLASSIFICATION_TOL).alpha_epi
            (select_angles A lv rv CLASSIFICATION_TOL).beta_endo
            (select_angles A lv rv CLASSIFICATION_TOL).beta_epi
            CLASSIFICATION_TOL) ∧
    CLASSIFICATION_TOL ≠ SYSTEM_TOL := by
  constructor
  · intro solver frm sl lv rv epi grad_lv grad_rv grad_epi grad_ab A
    rfl
  · norm_num [CLASSIFICATION_TOL, SYSTEM_TOL]

/-- C3 counterexample: at a point with `lv = 1e-5` (between the two
tolerances) the assembler's per-point engine invocation returns `none`
(because it receives `tol = 1e-3`), whereas an invocation at the engine's
internal default `1e-7` — which the claim says is used for every
invocation — returns a frame.  So the `1e-3` constant is not used "purely
for region classification". -/
theorem engine_tol_ctrex :
    fss_point_frame guessSolver unitFrm lerpQ 1e-5 0 0 0 0 0 0 defaultAngles =
      none ∧
    (system_at_dof guessSolver unitFrm lerpQ 1e-5 0 0 0 0 0 0 40 (-50) (-65)
        25 SYSTEM_TOL).isSome = true := by
  constructor
  · norm_num [fss_point_frame, system_at_dof, select_angles, bislerp]
  · norm_num [system_at_dof, SYSTEM_TOL, bislerp]

/-- C6: a sample point whose `lv`, `rv`, `epi` scalars are all below the
tolerance yields no frame from `system_at_dof`, and the assembler loop's
iteration for such a point leaves all three output arrays unchanged and
simply proceeds with the remaining points (the `continue` at line 407; the
loop is a total function, so no error is raised). -/
theorem system_absent_all_below_tol :
    (∀ (solver : RootSolver) (frm : Mat3 → Quat) (sl : Quat → Quat → ℝ → Quat)
        (lv rv epi tol : ℝ) (grad_lv grad_rv grad_epi grad_ab : Vec3)
        (alpha_endo alpha_epi beta_endo beta_epi : ℝ),
        lv < tol → rv < tol → epi < tol →
        system_at_dof solver frm sl lv rv epi grad_lv grad_rv grad_epi grad_ab
          alpha_endo alpha_epi beta_endo beta_epi tol = none) ∧
    (∀ (solver : RootSolver) (frm : Mat3 → Quat) (sl : Quat → Quat → ℝ → Quat)
        (D : FieldData) (A : Angles) (d : ℕ × ℕ × ℕ × ℕ)
        (rest : List (ℕ × ℕ × ℕ × ℕ)) (st : (ℕ → ℝ) × (ℕ → ℝ) × (ℕ → ℝ)),
        D.lv_scalar d.2.2.2 < 1e-3 → D.rv_scalar d.2.2.2 < 1e-3 →
        D.epi_scalar d.2.2.2 < 1e-3 →
        fss_loop solver frm sl D A (d :: rest) st =
          fss_loop solver frm sl D A rest st) := by
  have habsent : ∀ (solver : RootSolver) (frm : Mat3 → Quat)
      (sl : Quat → Quat → ℝ → Quat) (lv rv epi tol : ℝ)
      (grad_lv grad_rv grad_epi grad_ab : Vec3)
      (alpha_endo alpha_epi beta_endo beta_epi : ℝ),
      lv < tol → rv < tol → epi < tol →
      system_at_dof solver frm sl lv rv epi grad_lv grad_rv grad_epi grad_ab
        alpha_endo alpha_epi beta_endo beta_epi tol = none := by
    intro solver frm sl lv rv epi tol grad_lv grad_rv grad_epi grad_ab
      alpha_endo alpha_epi beta_endo beta_epi hlv hrv hepi
    simp only [system_at_dof]
    rw [if_neg (not_lt.mpr hlv.le), if_neg (not_lt.mpr hrv.le),
      if_neg (not_lt.mpr hepi.le)]
    rfl
  refine ⟨habsent, ?_⟩
  intro solver frm sl D A d rest st hlv hrv hepi
  obtain ⟨xd, yd, zd, sd⟩ := d
  simp only [fss_loop, List.foldl_cons]
  have hstep : fss_step solver frm sl D A st (xd, yd, zd, sd) = st := by
    simp only [fss_step, fss_point_frame]
    rw [habsent solver frm sl _ _ _ _ _ _ _ _ _ _ _ _ hlv hrv hepi]
  rw [hstep]

/-- Witness for `system_absent_all_below_tol` at the all-zero point
`lv = rv = epi = 0` with tolerance `1e-3` and a single-dof loop. -/
theorem system_absent_all_below_tol_witness :
    (0 : ℝ) < 1e-3 ∧
    system_at_dof guessSolver unitFrm lerpQ 0 0 0 0 0 0 0 40 (-50) (-65) 25
      1e-3 = none ∧
    fss_loop guessSolver unitFrm lerpQ zeroField defaultAngles [(0, 1, 2, 0)]
        (fun _ => 0, fun _ => 0, fun _ => 0) =
      fss_loop guessSolver unitFrm lerpQ zeroField defaultAngles []
        (fun _ => 0, fun _ => 0, fun _ => 0) :=
  ⟨by norm_num,
   (system_absent_all_below_tol).1 guessSolver unitFrm lerpQ 0 0 0 1e-3 0 0 0 0
     40 (-50) (-65) 25 (by norm_num) (by norm_num) (by norm_num),
   (system_absent_all_below_tol).2 guessSolver unitFrm lerpQ zeroField
     defaultAngles (0, 1, 2, 0) [] (fun _ => 0, fun _ => 0, fun _ => 0)
     (by norm_num [zeroField]) (by norm_num [zeroField])
     (by norm_num [zeroField])⟩

theorem pickMax_snd_le (p : Quat × ℝ) (l : List (Quat × ℝ)) :
    p.2 ≤ (pickMax p l).2 := by
  cases l with
  | nil => exact le_refl _
  | cons q rest =>
    rw [pickMax]
    split
    · exact le_of_lt (by assumption)
    · exact le_refl _

theorem qdot_self (q : Quat) : qdot q q = qnormSq q := by
  simp only [qdot, qnormSq]
  ring

/-- C8: interpolating a frame with itself is the identity: the candidate `qa`
itself has absolute dot product `|qa . qa| = 1` with `qb = qa`, so the
maximal dot product exceeds `1 - 1e-12` and `bislerp` returns `Qb = Q`
directly (second conjunct: the short-circuit branch in general). -/
theorem bislerp_idempotent :
    (∀ (frm : Mat3 → Quat) (sl : Quat → Quat → ℝ → Quat) (Q : Mat3) (t : ℝ),
        0 ≤ t → t ≤ 1 → qnormSq (frm Q) = 1 →
        bislerp frm sl (some Q) (some Q) t = some Q) ∧
    (∀ (frm : Mat3 → Quat) (sl : Quat → Quat → ℝ → Quat) (Qa Qb : Mat3)
        (t : ℝ), 1 - 1e-12 < (bislerp_max_pair frm Qa Qb).2 →
        bislerp frm sl (some Qa) (some Qb) t = some Qb) := by
  have hshort : ∀ (frm : Mat3 → Quat) (sl : Quat → Quat → ℝ → Quat)
      (Qa Qb : Mat3) (t : ℝ), 1 - 1e-12 < (bislerp_max_pair frm Qa Qb).2 →
      bislerp frm sl (some Qa) (some Qb) t = some Qb := by
    intro frm sl Qa Qb t h
    simp only [bislerp]
    rw [if_pos h]
  refine ⟨?_, hshort⟩
  intro frm sl Q t _ _ hunit
  apply hshort
  have hhead :
      (bislerp_max_pair frm Q Q).2 = (pickMax (frm Q, |qdot (frm Q) (frm Q)|)
        [(-frm Q, |qdot (-frm Q) (frm Q)|),
         (frm Q * quat_i, |qdot (frm Q * quat_i) (frm Q)|),
         (-(frm Q * quat_i), |qdot (-(frm Q * quat_i)) (frm Q)|),
         (frm Q * quat_j, |qdot (frm Q * quat_j) (frm Q)|),
         (-(frm Q * quat_j), |qdot (-(frm Q * quat_j)) (frm Q)|),
         (frm Q * quat_k, |qdot (frm Q * quat_k) (frm Q)|),
         (-(frm Q * quat_k), |qdot (-(frm Q * quat_k)) (frm Q)|)]).2 := by
    simp only [bislerp_max_pair, quat_candidates, List.map]
  have hbound := pickMax_snd_le (frm Q, |qdot (frm Q) (frm Q)|)
    [(-frm Q, |qdot (-frm Q) (frm Q)|),
     (frm Q * quat_i, |qdot (frm Q * quat_i) (frm Q)|),
     (-(frm Q * quat_i), |qdot (-(frm Q * quat_i)) (frm Q)|),
     (frm Q * quat_j, |qdot (frm Q * quat_j) (frm Q)|),
     (-(frm Q * quat_j), |qdot (-(frm Q * quat_j)) (frm Q)|),
     (frm Q * quat_k, |qdot (frm Q * quat_k) (frm Q)|),
     (-(frm Q * quat_k), |qdot (-(frm Q * quat_k)) (frm Q)|)]
  have hone : |qdot (frm Q) (frm Q)| = 1 := by
    rw [qdot_self, hunit, abs_one]
  rw [hhead]
  calc (1 : ℝ) - 1e-12 < 1 := by norm_num
    _ = (frm Q, |qdot (frm Q) (frm Q)|).2 := by rw [← hone]
    _ ≤ _ := hbound

/-- Witness for `bislerp_idempotent` at the identity matrix with the constant
unit-quaternion conversion, `t = 1/2`. -/
theorem bislerp_idempotent_witness :
    0 ≤ (1 / 2 : ℝ) ∧ (1 / 2 : ℝ) ≤ 1 ∧ qnormSq (unitFrm idMat) = 1 ∧
    bislerp unitFrm lerpQ (some idMat) (some idMat) (1 / 2) = some idMat :=
  ⟨by norm_num, by norm_num, by norm_num [unitFrm, qnormSq],
   bislerp_idempotent.1 unitFrm lerpQ idMat (1 / 2) (by norm_num) (by norm_num)
     (by norm_num [unitFrm, qnormSq])⟩

theorem qnormalized_of_unit (q : Quat) (h : qnormSq q = 1) :
    qnormalized q = q := by
  simp [qnormalized, qabs, h, Real.sqrt_one]

/-- C4 amended, positive part: the right endpoint is exact: for any inputs,
`bislerp(Qa, Qb, 1) = Qb`, given the library contracts that
`from_rotation_matrix` returns a unit quaternion representing its input and
that slerp at parameter 1 returns its second argument. -/
theorem bislerp_right_endpoint (frm : Mat3 → Quat)
    (sl : Quat → Quat → ℝ → Quat) (Qa Qb : Mat3)
    (hunit : qnormSq (frm Qb) = 1)
    (hround : as_rotation_matrix (frm Qb) = Qb)
    (hsl : ∀ p q : Quat, sl p q 1 = q) :
    bislerp frm sl (some Qa) (some Qb) 1 = some Qb := by
  simp only [bislerp]
  split
  · rfl
  · rw [hsl, qnormalized_of_unit _ hunit, hround]

/-- Witness for `bislerp_right_endpoint` at the identity matrix. -/
theorem bislerp_right_endpoint_witness :
    qnormSq (unitFrm idMat) = 1 ∧ as_rotation_matrix (unitFrm idMat) = idMat ∧
    (∀ p q : Quat, lerpQ p q 1 = q) ∧
    bislerp unitFrm lerpQ (some idMat) (some idMat) 1 = some idMat := by
  have h1 : qnormSq (unitFrm idMat) = 1 := by norm_num [unitFrm, qnormSq]
  have h2 : as_rotation_matrix (unitFrm idMat) = idMat := by
    ext <;> norm_num [as_rotation_matrix, unitFrm, qnormSq, idMat]
  have h3 : ∀ p q : Quat, lerpQ p q 1 = q := by
    intro p q
    ext <;> norm_num [lerpQ, Quat.qadd_def, Quat.qsmul_def]
  exact ⟨h1, h2, h3, bislerp_right_endpoint unitFrm lerpQ idMat idMat h1 h2 h3⟩

/-- C4 counterexample: `Qa = I` and `Qb = Qb4` (a rotation by about 106
degrees about the x-axis, hence more than 90 degrees apart: the trace of
`Qa^T Qb` is `11/25 ≤ 1`).  All library contracts hold for the exhibited
`from_rotation_matrix` and slerp instances, the short-circuit is not taken
(maximal dot `4/5`), yet `bislerp(Qa, Qb, 0)` is not `Qa`: the selected
candidate is `qa * i` (dot `4/5` beats `3/5`), whose rotation matrix is
`diag(1, -1, -1)`, a 180-degree rotation away from `Qa`. -/
theorem bislerp_left_endpoint_ctrex :
    IsRotation idMat ∧ IsRotation Qb4 ∧
    qnormSq (frm4 idMat) = 1 ∧ qnormSq (frm4 Qb4) = 1 ∧
    as_rotation_matrix (frm4 idMat) = idMat ∧
    as_rotation_matrix (frm4 Qb4) = Qb4 ∧
    (∀ p q : Quat, lerpQ p q 0 = p ∧ lerpQ p q 1 = q) ∧
    trace (matMul (transpose idMat) Qb4) ≤ 1 ∧
    bislerp frm4 lerpQ (some idMat) (some Qb4) 0 ≠ some idMat := by
  have hqa : frm4 idMat = ⟨1, 0, 0, 0⟩ := by norm_num [frm4, idMat]
  have hqb : frm4 Qb4 = ⟨3 / 5, 4 / 5, 0, 0⟩ := by norm_num [frm4, Qb4]
  have hpair : bislerp_max_pair frm4 idMat Qb4 = (⟨0, 1, 0, 0⟩, 4 / 5) := by
    simp only [bislerp_max_pair, quat_candidates, List.map, hqa, hqb]
    norm_num [qdot, Quat.qmul_def, Quat.qneg_def, quat_i, quat_j, quat_k,
      pickMax, abs_eq_max_neg, max_def]
  have hlerp : lerpQ ⟨0, 1, 0, 0⟩ ⟨3 / 5, 4 / 5, 0, 0⟩ 0 = ⟨0, 1, 0, 0⟩ := by
    ext <;> norm_num [lerpQ, Quat.qadd_def, Quat.qsmul_def]
  have hnorm : qnormalized (⟨0, 1, 0, 0⟩ : Quat) = ⟨0, 1, 0, 0⟩ :=
    qnormalized_of_unit _ (by norm_num [qnormSq])
  have hrot : as_rotation_matrix (⟨0, 1, 0, 0⟩ : Quat) =
      ⟨⟨1, 0, 0⟩, ⟨0, -1, 0⟩, ⟨0, 0, -1⟩⟩ := by
    ext <;> norm_num [as_rotation_matrix, qnormSq]
  have hbis : bislerp frm4 lerpQ (some idMat) (some Qb4) 0 =
      some (⟨⟨1, 0, 0⟩, ⟨0, -1, 0⟩, ⟨0, 0, -1⟩⟩ : Mat3) := by
    simp only [bislerp, hpair, hqb]
    rw [if_neg (by norm_num), hlerp, hnorm, hrot]
  refine ⟨?_, ?_, ?_, ?_, ?_, ?_, ?_, ?_, ?_⟩
  · refine ⟨?_, ?_⟩
    · show matMul (transpose idMat) idMat = idMat
      ext <;> norm_num [matMul, mulVec, transpose, idMat]
    · norm_num [det, dot, cross, idMat]
  · refine ⟨?_, ?_⟩
    · show matMul (transpose Qb4) Qb4 = idMat
      ext <;> norm_num [matMul, mulVec, transpose, Qb4, idMat]
    · norm_num [det, dot, cross, Qb4]
  · rw [hqa]; norm_num [qnormSq]
  · rw [hqb]; norm_num [qnormSq]
  · rw [hqa]
    ext <;> norm_num [as_rotation_matrix, qnormSq, idMat]
  · rw [hqb]
    ext <;> norm_num [as_rotation_matrix, qnormSq, Qb4]
  · intro p q
    constructor
    · ext <;> norm_num [lerpQ, Quat.qadd_def, Quat.qsmul_def]
    · ext <;> norm_num [lerpQ, Quat.qadd_def, Quat.qsmul_def]
  · norm_num [trace, matMul, mulVec, transpose, idMat, Qb4]
  · rw [hbis]
    intro h
    have h2 := congrArg (fun o => (o.getD idMat).c1.y) h
    norm_num [idMat] at h2

theorem dot_self_nonneg (v : Vec3) : 0 ≤ dot v v := by
  have hx := mul_self_nonneg v.x
  have hy := mul_self_nonneg v.y
  have hz := mul_self_nonneg v.z
  simp only [dot]
  linarith

theorem dot_self_pos (v : Vec3) (hv : v ≠ 0) : 0 < dot v v := by
  rcases (dot_self_nonneg v).lt_or_eq with h | h
  · exact h
  · exfalso
    apply hv
    simp only [dot] at h
    have hx := mul_self_nonneg v.x
    have hy := mul_self_nonneg v.y
    have hz := mul_self_nonneg v.z
    have hx0 : v.x = 0 := mul_self_eq_zero.mp (by linarith)
    have hy0 : v.y = 0 := mul_self_eq_zero.mp (by linarith)
    have hz0 : v.z = 0 := mul_self_eq_zero.mp (by linarith)
    rw [Vec3.zero_def]
    ext
    · exact hx0
    · exact hy0
    · exact hz0

theorem vnorm_pos (v : Vec3) (hv : v ≠ 0) : 0 < vnorm v :=
  Real.sqrt_pos.mpr (dot_self_pos v hv)

theorem vnorm_mul_self (v : Vec3) : vnorm v * vnorm v = dot v v :=
  Real.mul_self_sqrt (dot_self_nonneg v)

theorem dot_normalize_self (v : Vec3) (hv : v ≠ 0) :
    dot (normalize v) (normalize v) = 1 := by
  have hn : vnorm v ≠ 0 := ne_of_gt (vnorm_pos v hv)
  have hsq := vnorm_mul_self v
  simp only [dot] at hsq
  simp only [normalize, dot]
  field_simp
  linarith

theorem dot_normalize_orth (u v : Vec3) (hu : u ≠ 0) (hv : v ≠ 0)
    (huv : dot u v = 0) : dot (normalize u) (normalize v) = 0 := by
  have hnu : vnorm u ≠ 0 := ne_of_gt (vnorm_pos u hu)
  have hnv : vnorm v ≠ 0 := ne_of_gt (vnorm_pos v hv)
  simp only [dot] at huv
  simp only [normalize, dot]
  field_simp
  linarith

theorem dot_cross_left (a b : Vec3) : dot (cross a b) a = 0 := by
  simp only [dot, cross]
  ring

theorem dot_cross_right (a b : Vec3) : dot (cross a b) b = 0 := by
  simp only [dot, cross]
  ring

theorem cross_norm (a b : Vec3) :
    dot (cross a b) (cross a b) = dot a a * dot b b - dot a b * dot a b := by
  simp only [dot, cross]
  ring

theorem cross_zero_right (a : Vec3) : cross a 0 = 0 := by
  rw [Vec3.zero_def]
  ext <;> simp [cross]

theorem normalize_zero : normalize 0 = 0 := by
  rw [Vec3.zero_def]
  ext <;> simp [normalize]

theorem dot_smul_right (a b : Vec3) (c : ℝ) : dot a (c • b) = c * dot a b := by
  simp only [dot, Vec3.smul_def]
  ring

theorem dot_sub_smul (a b : Vec3) (c : ℝ) :
    dot a (b - c • a) = dot a b - c * dot a a := by
  simp only [dot, Vec3.sub_def, Vec3.smul_def]
  ring

theorem smul_vnorm_normalize (v : Vec3) (hv : v ≠ 0) :
    vnorm v • normalize v = v := by
  have hn : vnorm v ≠ 0 := ne_of_gt (vnorm_pos v hv)
  ext <;> simp only [normalize, Vec3.smul_def] <;> field_simp

theorem Vec3.sub_eq_zero_iff (a b : Vec3) : a - b = 0 ↔ a = b := by
  rw [Vec3.sub_def, Vec3.zero_def]
  constructor
  · intro h
    have hx := congrArg Vec3.x h
    have hy := congrArg Vec3.y h
    have hz := congrArg Vec3.z h
    simp only at hx hy hz
    ext
    · linarith
    · linarith
    · linarith
  · intro h
    rw [h]
    ext <;> simp

theorem isOrthonormal_of_dots (Q : Mat3) (h00 : dot Q.c0 Q.c0 = 1)
    (h11 : dot Q.c1 Q.c1 = 1) (h22 : dot Q.c2 Q.c2 = 1)
    (h01 : dot Q.c0 Q.c1 = 0) (h02 : dot Q.c0 Q.c2 = 0)
    (h12 : dot Q.c1 Q.c2 = 0) : IsOrthonormal Q := by
  simp only [dot] at h00 h11 h22 h01 h02 h12
  show matMul (transpose Q) Q = idMat
  ext <;> simp only [matMul, mulVec, transpose, idMat] <;>
    ring_nf <;> ring_nf at h00 h11 h22 h01 h02 h12 <;> linarith

/-- The frame built by `axis` after the root solve, as a function of the
solver's output `e0`: orthonormal whenever `e0` is an exact root of the
residual and `u` is orthogonal to `v`. -/
theorem axisQ_orthonormal (u v e0 : Vec3) (hu : u ≠ 0) (hv : v ≠ 0)
    (huv : dot u v = 0) (hroot : axis_root u v e0 = 0) :
    IsOrthonormal (⟨e0, normalize u, normalize (v - dot e0 v • e0)⟩ : Mat3) := by
  have hroot2 : e0 - cross (normalize u) (normalize (v - dot e0 v • e0)) = 0 :=
    hroot
  set e1 := normalize u with he1
  set ww : Vec3 := v - dot e0 v • e0 with hww
  set e2 := normalize ww with he2
  have he0x : e0 = cross e1 e2 := (Vec3.sub_eq_zero_iff _ _).mp hroot2
  have hn1 : dot e1 e1 = 1 := by rw [he1]; exact dot_normalize_self u hu
  by_cases hw : ww = 0
  · exfalso
    apply hv
    have hz : e2 = 0 := by rw [he2, hw, normalize_zero]
    have h0 : e0 = 0 := by rw [he0x, hz, cross_zero_right]
    have hwv : ww = v := by
      rw [hww, h0]
      ext <;> simp [Vec3.sub_def, Vec3.smul_def, dot, Vec3.zero_def]
    rw [← hwv]
    exact hw
  · have hn2 : dot e2 e2 = 1 := by rw [he2]; exact dot_normalize_self ww hw
    have hperp01 : dot e0 e1 = 0 := by rw [he0x]; exact dot_cross_left e1 e2
    have hperp02 : dot e0 e2 = 0 := by rw [he0x]; exact dot_cross_right e1 e2
    have hdow : dot e0 ww = 0 := by
      conv_lhs => rw [← smul_vnorm_normalize ww hw]
      rw [← he2, dot_smul_right, hperp02, mul_zero]
    have hexp : dot e0 ww = dot e0 v - dot e0 v * dot e0 e0 := by
      rw [hww]
      exact dot_sub_smul e0 v (dot e0 v)
    rw [hexp] at hdow
    have hkey : dot e0 v * (1 - dot e0 e0) = 0 := by linear_combination hdow
    have h12 : dot e1 e2 = 0 := by
      rcases mul_eq_zero.mp hkey with hc | hc
      · have hwv : ww = v := by
          rw [hww, hc]
          ext <;> simp [Vec3.sub_def, Vec3.smul_def]
        rw [he1, he2, hwv]
        exact dot_normalize_orth u v hu hv huv
      · have hs : dot e0 e0 = 1 := by linarith
        have hl : dot e0 e0 = dot e1 e1 * dot e2 e2 - dot e1 e2 * dot e1 e2 := by
          rw [he0x]
          exact cross_norm e1 e2
        rw [hn1, hn2, hs] at hl
        have hzero : dot e1 e2 * dot e1 e2 = 0 := by linarith
        exact mul_self_eq_zero.mp hzero
    have h00 : dot e0 e0 = 1 := by
      rw [he0x, cross_norm, hn1, hn2, h12]
      ring
    exact isOrthonormal_of_dots _ h00 hn1 hn2 hperp01 hperp02 h12

/-- C5 amended: for non-zero `u` orthogonal to `v`, when the solver returns
an exact root of the residual, the `axis` frame is orthonormal, and its
second column is `normalize u` (the latter holds by construction for any
inputs).  For non-orthogonal `u, v` orthonormality fails, see the
counterexample. -/
theorem axis_orthonormal_of_orthogonal (solver : RootSolver) (u v : Vec3)
    (hu : u ≠ 0) (hv : v ≠ 0) (huv : dot u v = 0)
    (hroot : axis_root u v (solver (axis_root u v) (axis_guess u v)) = 0) :
    IsOrthonormal (axis solver u v) ∧ (axis solver u v).c1 = normalize u := by
  constructor
  · show IsOrthonormal
      (⟨solver (axis_root u v) (axis_guess u v), normalize u,
        normalize (v - dot (solver (axis_root u v) (axis_guess u v)) v •
          solver (axis_root u v) (axis_guess u v))⟩ : Mat3)
    exact axisQ_orthonormal u v _ hu hv huv hroot
  · rfl

theorem sqrt_twentyfive : Real.sqrt 25 = 5 := by
  rw [show (25 : ℝ) = 5 ^ 2 by norm_num]
  exact Real.sqrt_sq (by norm_num)

/-- Witness for `axis_orthonormal_of_orthogonal` at `u = (0,0,1)`,
`v = (1,0,0)`: the initial guess `(0,1,0)` is already an exact root, so the
identity-on-the-guess solver satisfies the root hypothesis. -/
theorem axis_orthonormal_witness :
    (⟨0, 0, 1⟩ : Vec3) ≠ 0 ∧ (⟨1, 0, 0⟩ : Vec3) ≠ 0 ∧
    dot ⟨0, 0, 1⟩ ⟨1, 0, 0⟩ = 0 ∧
    axis_root ⟨0, 0, 1⟩ ⟨1, 0, 0⟩
      (guessSolver (axis_root ⟨0, 0, 1⟩ ⟨1, 0, 0⟩)
        (axis_guess ⟨0, 0, 1⟩ ⟨1, 0, 0⟩)) = 0 ∧
    IsOrthonormal (axis guessSolver ⟨0, 0, 1⟩ ⟨1, 0, 0⟩) ∧
    (axis guessSolver ⟨0, 0, 1⟩ ⟨1, 0, 0⟩).c1 = normalize ⟨0, 0, 1⟩ := by
  have h1 : (⟨0, 0, 1⟩ : Vec3) ≠ 0 := by
    intro h
    have h2 := congrArg Vec3.z h
    norm_num [Vec3.zero_z, Vec3.zero_x, Vec3.zero_y] at h2
  have h2 : (⟨1, 0, 0⟩ : Vec3) ≠ 0 := by
    intro h
    have h3 := congrArg Vec3.x h
    norm_num [Vec3.zero_z, Vec3.zero_x, Vec3.zero_y] at h3
  have h3 : dot ⟨0, 0, 1⟩ ⟨1, 0, 0⟩ = 0 := by norm_num [dot]
  have hna : normalize ⟨0, 0, 1⟩ = ⟨0, 0, 1⟩ := by
    ext <;> norm_num [normalize, vnorm, dot]
  have hnb : normalize ⟨1, 0, 0⟩ = ⟨1, 0, 0⟩ := by
    ext <;> norm_num [normalize, vnorm, dot]
  have hnc : normalize ⟨0, 1, 0⟩ = ⟨0, 1, 0⟩ := by
    ext <;> norm_num [normalize, vnorm, dot]
  have hguess : axis_guess ⟨0, 0, 1⟩ ⟨1, 0, 0⟩ = ⟨0, 1, 0⟩ := by
    simp only [axis_guess, hna, hnb]
    rw [show (⟨1, 0, 0⟩ : Vec3) - dot ⟨0, 0, 1⟩ ⟨1, 0, 0⟩ • ⟨0, 0, 1⟩ =
        ⟨1, 0, 0⟩ by ext <;> norm_num [dot, Vec3.sub_def, Vec3.smul_def]]
    rw [hnb]
    rw [show cross ⟨0, 0, 1⟩ ⟨1, 0, 0⟩ = ⟨0, 1, 0⟩ by
      ext <;> norm_num [cross]]
    exact hnc
  have h4 : axis_root ⟨0, 0, 1⟩ ⟨1, 0, 0⟩
      (guessSolver (axis_root ⟨0, 0, 1⟩ ⟨1, 0, 0⟩)
        (axis_guess ⟨0, 0, 1⟩ ⟨1, 0, 0⟩)) = 0 := by
    show axis_root ⟨0, 0, 1⟩ ⟨1, 0, 0⟩ (axis_guess ⟨0, 0, 1⟩ ⟨1, 0, 0⟩) = 0
    rw [hguess]
    simp only [axis_root, hna]
    rw [show (⟨1, 0, 0⟩ : Vec3) - dot ⟨0, 1, 0⟩ ⟨1, 0, 0⟩ • ⟨0, 1, 0⟩ =
        ⟨1, 0, 0⟩ by ext <;> norm_num [dot, Vec3.sub_def, Vec3.smul_def]]
    rw [hnb]
    ext <;> norm_num [cross, Vec3.sub_def, Vec3.zero_x, Vec3.zero_y, Vec3.zero_z]
  have hmain := axis_orthonormal_of_orthogonal guessSolver ⟨0, 0, 1⟩ ⟨1, 0, 0⟩
    h1 h2 h3 h4
  exact ⟨h1, h2, h3, h4, hmain.1, hmain.2⟩

/-- C5 counterexample: `u = (0,0,1)` and `v = (3,0,4)` are non-zero and
non-parallel (their cross product `(0,3,0)` is non-zero) but not orthogonal.
The unique exact root of the residual is `e0 = (0, 3/5, 0)` (exhibited via a
solver returning it; the root equation is verified in the statement), and
the resulting frame `Q = [(0,3/5,0), (0,0,1), (3/5,0,4/5)]` is far from
orthonormal: `(Q^T Q)_{00} = 9/25`, and the second and third columns are not
orthogonal.  This refutes orthonormality 'to solver tolerance'. -/
theorem axis_not_orthonormal_ctrex :
    (⟨0, 0, 1⟩ : Vec3) ≠ 0 ∧ (⟨3, 0, 4⟩ : Vec3) ≠ 0 ∧
    cross ⟨0, 0, 1⟩ ⟨3, 0, 4⟩ ≠ 0 ∧
    axis_root ⟨0, 0, 1⟩ ⟨3, 0, 4⟩
      (ctrexSolver (axis_root ⟨0, 0, 1⟩ ⟨3, 0, 4⟩)
        (axis_guess ⟨0, 0, 1⟩ ⟨3, 0, 4⟩)) = 0 ∧
    ¬ IsOrthonormal (axis ctrexSolver ⟨0, 0, 1⟩ ⟨3, 0, 4⟩) := by
  have hna : normalize ⟨0, 0, 1⟩ = ⟨0, 0, 1⟩ := by
    ext <;> norm_num [normalize, vnorm, dot]
  have hnv : normalize ⟨3, 0, 4⟩ = ⟨3 / 5, 0, 4 / 5⟩ := by
    ext <;> norm_num [normalize, vnorm, dot, sqrt_twentyfive]
  have hsub : (⟨3, 0, 4⟩ : Vec3) -
      dot ⟨0, 3 / 5, 0⟩ ⟨3, 0, 4⟩ • ⟨0, 3 / 5, 0⟩ = ⟨3, 0, 4⟩ := by
    ext <;> norm_num [dot, Vec3.sub_def, Vec3.smul_def]
  refine ⟨?_, ?_, ?_, ?_, ?_⟩
  · intro h
    have h2 := congrArg Vec3.z h
    norm_num [Vec3.zero_z, Vec3.zero_x, Vec3.zero_y] at h2
  · intro h
    have h2 := congrArg Vec3.x h
    norm_num [Vec3.zero_z, Vec3.zero_x, Vec3.zero_y] at h2
  · intro h
    have h2 := congrArg Vec3.y h
    norm_num [cross, Vec3.zero_z, Vec3.zero_x, Vec3.zero_y] at h2
  · show axis_root ⟨0, 0, 1⟩ ⟨3, 0, 4⟩ ⟨0, 3 / 5, 0⟩ = 0
    simp only [axis_root, hna]
    rw [hsub, hnv]
    ext <;> norm_num [cross, Vec3.sub_def, Vec3.zero_x, Vec3.zero_y, Vec3.zero_z]
  · have haxis : axis ctrexSolver ⟨0, 0, 1⟩ ⟨3, 0, 4⟩ =
        ⟨⟨0, 3 / 5, 0⟩, ⟨0, 0, 1⟩, ⟨3 / 5, 0, 4 / 5⟩⟩ := by
      simp only [axis, ctrexSolver, hna]
      rw [hsub, hnv]
    rw [haxis]
    intro h
    have h2 : matMul
        (transpose (⟨⟨0, 3 / 5, 0⟩, ⟨0, 0, 1⟩, ⟨3 / 5, 0, 4 / 5⟩⟩ : Mat3))
        ⟨⟨0, 3 / 5, 0⟩, ⟨0, 0, 1⟩, ⟨3 / 5, 0, 4 / 5⟩⟩ = idMat := h
    have h3 := congrArg (fun M => M.c0.x) h2
    norm_num [matMul, mulVec, transpose, idMat] at h3

end Ldrb
